import Mathlib

/-!
Verification development for the str2quantity repository (Go).

The embedding models Go strings as lists of characters, Go `float64`
computation as exact rational arithmetic (the algorithmic tolerance logic of
the parser is expressed directly over those values), and Go machine integers
with explicit truncation/wrap-around.  Fallible operations return
`Except`/`Option` values, and the mutating registry methods are modelled as
functions returning the updated registry together with the optional error, in
the order the Go code performs its mutations.
-/

deriving instance DecidableEq for Except

namespace S2Q

/-- Go strings are modelled as lists of characters. -/
abbrev Str := List Char

/-- Shorthand turning a Lean string literal into the model's string type. -/
def str (s : String) : Str := s.data

/-! ### Executable rational arithmetic

The standard `Rat` operations are `@[irreducible]`, which stops concrete
runs of the model from evaluating inside proofs.  The model therefore uses
the following `mkRat`-based wrappers; the bridging lemmas `qAdd_eq`,
`qMul_eq` and `qSub_eq` in the theorem part of this file show each one
agrees with the standard operation. -/

/-- Addition on ℚ through `mkRat`. -/
def qAdd (a b : ℚ) : ℚ :=
  mkRat (a.num * b.den + b.num * a.den) (a.den * b.den)

/-- Multiplication on ℚ through `mkRat`. -/
def qMul (a b : ℚ) : ℚ :=
  mkRat (a.num * b.num) (a.den * b.den)

/-- Subtraction on ℚ through `mkRat`. -/
def qSub (a b : ℚ) : ℚ :=
  qAdd a (-b)

/-! ## Data model (unit/dimension.go, unit/types.go) -/

/-- `Dimension` from the source: seven SI exponents plus the free-form
`Extra` discriminator. -/
structure Dimension where
  L : Int
  M : Int
  T : Int
  I : Int
  K : Int
  N : Int
  J : Int
  Extra : String
deriving DecidableEq, Repr

/-- `Dimension.Equals` in the source is Go struct equality `d == other`. -/
def Dimension.Equals (d other : Dimension) : Bool :=
  decide (d = other)

/-- `DimDimensionless` — the zero value `Dimension{}`. -/
def DimDimensionless : Dimension := ⟨0, 0, 0, 0, 0, 0, 0, ""⟩

/-- `DimTime` — `Dimension{T: 1}`. -/
def DimTime : Dimension := ⟨0, 0, 1, 0, 0, 0, 0, ""⟩

/-- `DimLength` — `Dimension{L: 1}`. -/
def DimLength : Dimension := ⟨1, 0, 0, 0, 0, 0, 0, ""⟩

/-- `DimStorage` — `Dimension{Extra: "storage"}`. -/
def DimStorage : Dimension := ⟨0, 0, 0, 0, 0, 0, 0, "storage"⟩

/-- `Unit` from the source: display symbol, dimension and scale.  The Go
`float64` scale is modelled as an exact rational. -/
structure Unit where
  Symbol : Str
  Dimension : Dimension
  Scale : ℚ
deriving DecidableEq, Repr

/-- `Prefix` from the source: symbol and scale. -/
structure Prefix where
  Symbol : Str
  Scale : ℚ
deriving DecidableEq, Repr

/-- `SystemConfig` from unit/system.go. -/
structure SystemConfig where
  AllowMultiPart : Bool
  CaseInsensitive : Bool
  Separators : Str
deriving DecidableEq, Repr

/-- The Go `map[string]Unit` is modelled as an association list with
insert-replaces-existing-key semantics; only lookups observe it. -/
def lookupA (l : List (Str × Unit)) (k : Str) : Option Unit :=
  match l with
  | [] => none
  | (k2, u) :: rest => if k2 = k then some u else lookupA rest k

/-- Map assignment `m[k] = u`: replace the binding if the key is present,
otherwise add it. -/
def insertA (l : List (Str × Unit)) (k : Str) (u : Unit) : List (Str × Unit) :=
  match l with
  | [] => [(k, u)]
  | (k2, u2) :: rest =>
    if k2 = k then (k2, u) :: rest else (k2, u2) :: insertA rest k u

/-- Lookup in the modelled `map[string]map[string]bool` of per-unit
whitelists; the inner set is a list of the symbols mapped to `true`. -/
def lookupBind (l : List (Str × List Str)) (k : Str) : Option (List Str) :=
  match l with
  | [] => none
  | (k2, s) :: rest => if k2 = k then some s else lookupBind rest k

/-- `s.unitPrefixes[uKey][pKey] = true` (allocating the inner set when
absent, exactly as the Go code does). -/
def addBinding (l : List (Str × List Str)) (u p : Str) : List (Str × List Str) :=
  match l with
  | [] => [(u, [p])]
  | (k2, s) :: rest =>
    if k2 = u then (k2, if p ∈ s then s else s ++ [p]) :: rest
    else (k2, s) :: addBinding rest u p

/-- `System` from unit/system.go. -/
structure System where
  units : List (Str × Unit)
  prefixes : List Prefix
  Config : SystemConfig
  unitPrefixes : List (Str × List Str)
deriving DecidableEq, Repr

/-- `NewSystem` — empty registry with the given configuration. -/
def NewSystem (config : SystemConfig) : System :=
  ⟨[], [], config, []⟩

/-- `normalizeKey` — lowercases when the configuration is case-insensitive. -/
def normalizeKey (s : System) (k : Str) : Str :=
  if s.Config.CaseInsensitive then k.map Char.toLower else k

/-- `Add` — registers a unit keyed by the normalized symbol; last write
wins on collision. -/
def Add (s : System) (symbol : Str) (scale : ℚ) (dim : Dimension) : System :=
  { s with units := insertA s.units (normalizeKey s symbol) ⟨symbol, dim, scale⟩ }

/-- Construction-time error values of the registry methods. -/
inductive RegErr
  | conflictingScale (sym : Str)
  | unknownTargetUnit (sym : Str)
  | notFoundOnOverwrite (sym : Str)
deriving DecidableEq, Repr

/-- Insertion step of the length sort: place `p` before the first entry with a
strictly shorter symbol. -/
def insertByLen (p : Prefix) : List Prefix → List Prefix
  | [] => [p]
  | q :: rest =>
    if q.Symbol.length < p.Symbol.length then p :: q :: rest
    else q :: insertByLen p rest

/-- `sort.Slice(s.prefixes, by descending symbol length)`.  The Go sort is
unstable, so the order among equal-length symbols is unspecified there; this
model produces one particular descending-length order.  Resolution can never
observe the difference: two distinct prefix symbols of equal length cannot
both be a prefix of the same input. -/
def sortByLenDesc (l : List Prefix) : List Prefix :=
  l.foldr insertByLen []

/-- The binding loop at the end of `AddPrefix`: walks the target-unit list,
failing at the first unknown unit; bindings made before the failure remain
installed (the Go method mutates its receiver as it goes). -/
def bindTargets (s : System) (pKey : Str) : List Str → System × Option RegErr
  | [] => (s, none)
  | t :: rest =>
    let uKey := normalizeKey s t
    match lookupA s.units uKey with
    | none => (s, some (.unknownTargetUnit t))
    | some _ =>
      bindTargets { s with unitPrefixes := addBinding s.unitPrefixes uKey pKey } pKey rest

/-- `AddPrefix` — registers (or merges) a prefix definition, re-sorts the
prefix list longest-symbol-first, then binds the prefix to each target unit.
The returned `System` carries every mutation made before an error, matching
the in-place mutation of the Go receiver. -/
def AddPrefix (s : System) (prefixSymbol : Str) (scale : ℚ) (targetUnits : List Str) :
    System × Option RegErr :=
  let pKey := normalizeKey s prefixSymbol
  match s.prefixes.find? (fun p => p.Symbol = pKey) with
  | some p =>
    if p.Scale ≠ scale then (s, some (.conflictingScale prefixSymbol))
    else bindTargets s pKey targetUnits
  | none =>
    bindTargets { s with prefixes := sortByLenDesc (s.prefixes ++ [⟨pKey, scale⟩]) }
      pKey targetUnits

/-- `OverwritePrefix` — replaces the scale of the first matching prefix in
place; errors when the prefix is absent. -/
def OverwritePrefix (s : System) (symbol : Str) (newScale : ℚ) :
    System × Option RegErr :=
  let pKey := normalizeKey s symbol
  match overwriteIn s.prefixes pKey newScale with
  | some l => ({ s with prefixes := l }, none)
  | none => (s, some (.notFoundOnOverwrite symbol))
where
  overwriteIn : List Prefix → Str → ℚ → Option (List Prefix)
    | [], _, _ => none
    | p :: rest, k, sc =>
      if p.Symbol = k then some ({ p with Scale := sc } :: rest)
      else (overwriteIn rest k sc).map (p :: ·)

/-- `Clone` — on the pure value level the deep copy is the identity; the heap
model further below captures the ownership transfer the copy performs. -/
def Clone (s : System) : System :=
  { units := s.units, prefixes := s.prefixes, Config := s.Config,
    unitPrefixes := s.unitPrefixes }

/-- The decomposition walk of `Resolve` over the prefix list:
prefix must be a strict prefix of the key, the remainder must be a registered
unit, and that unit's whitelist must contain the prefix symbol. -/
def resolveLoop (sys : System) (key : Str) : List Prefix → Option (Unit × ℚ)
  | [] => none
  | p :: rest =>
    if p.Symbol.length < key.length ∧ p.Symbol <+: key then
      match lookupA sys.units (key.drop p.Symbol.length) with
      | some u2 =>
        match lookupBind sys.unitPrefixes (key.drop p.Symbol.length) with
        | some al =>
          if p.Symbol ∈ al then some (u2, p.Scale) else resolveLoop sys key rest
        | none => resolveLoop sys key rest
      | none => resolveLoop sys key rest
    else resolveLoop sys key rest

/-- `Resolve` — exact unit match first (prefix scale 1), then the
longest-prefix-first decomposition; `none` models `found = false`. -/
def Resolve (sys : System) (symbol : Str) : Option (Unit × ℚ) :=
  let lookupSymbol := normalizeKey sys symbol
  match lookupA sys.units lookupSymbol with
  | some u => some (u, 1)
  | none => resolveLoop sys lookupSymbol sys.prefixes

/-! ## Parsing engine (parser/parser.go)

The engine works on ASCII inputs byte by byte in Go; the model scans the same
class tests character by character, which agrees on every ASCII input. -/

/-- Parse-time error values, one constructor per `fmt.Errorf`/`errors.New`
site of the parser (`fuelExhausted` is the model's own marker for running out
of recursion fuel; `Parse` supplies enough fuel that it is unreachable, since
every loop iteration consumes at least one character). -/
inductive ParseError
  | invalidNumber
  | badNumberLit (tok : Str)
  | missingUnit (orig : Str)
  | unknownUnit (tok : Str)
  | mixedDimensions (d1 d2 : Dimension)
  | precisionLoss (value : ℚ)
  | multiPartNotAllowed (orig : Str)
  | fuelExhausted
deriving DecidableEq, Repr

/-- The default separator set `" \t\n\r,;|/"` substituted when the
configured set is empty. -/
def sepsOrDefault (sep : Str) : Str :=
  if sep = [] then (" \t\n\r,;|/").data else sep

/-- A character that could start a number: digit, dot or sign. -/
def numStart (c : Char) : Bool :=
  c.isDigit || c == '.' || c == '+' || c == '-'

/-- `safeSkipSeps` — consume leading separators, but stop at any character
that could start a number, and at any unknown character. -/
def safeSkipSeps (s : Str) (separators : Str) : Str :=
  match s with
  | [] => []
  | c :: rest =>
    if numStart c then c :: rest
    else if c ∈ sepsOrDefault separators then safeSkipSeps rest separators
    else c :: rest

/-- The scanning loop of `parseNumber`: `allowSign`/`allowDot`/`allowE` are
the Go flags, `first` is `end == 0` (the exponent marker may not come first).
Returns the consumed characters and the remainder. -/
def numScan (s : Str) (allowSign allowDot allowE first : Bool) : Str × Str :=
  match s with
  | [] => ([], [])
  | c :: rest =>
    if c.isDigit then
      let (t, r) := numScan rest false allowDot allowE false
      (c :: t, r)
    else if c == '.' && allowDot then
      let (t, r) := numScan rest false false allowE false
      (c :: t, r)
    else if (c == 'e' || c == 'E') && allowE && !first then
      let (t, r) := numScan rest true false false false
      (c :: t, r)
    else if (c == '+' || c == '-') && allowSign then
      let (t, r) := numScan rest false allowDot allowE false
      (c :: t, r)
    else ([], c :: rest)

/-- Leading digit run of a token. -/
def takeDigits (s : Str) : Str × Str :=
  match s with
  | [] => ([], [])
  | c :: rest =>
    if c.isDigit then
      let (d, r) := takeDigits rest
      (c :: d, r)
    else ([], c :: rest)

/-- Numeric value of a digit run. -/
def digitsToNat (s : Str) : ℕ :=
  s.foldl (fun acc c => acc * 10 + (c.toNat - ('0').toNat)) 0

/-- Exact value of a decimal literal `sgn ds . fs × 10^(±e)`, built as a
single fraction: the mantissa digits over `10 ^ |fs|`, shifted by the
exponent. -/
def qVal (sgn : ℤ) (ds fs : Str) (e : ℕ) (epos : Bool) : ℚ :=
  let mantNum : ℤ := (digitsToNat ds * 10 ^ fs.length + digitsToNat fs : ℕ)
  if epos then mkRat (sgn * mantNum * (10 ^ e : ℕ)) (10 ^ fs.length)
  else mkRat (sgn * mantNum) (10 ^ fs.length * 10 ^ e)

/-- `strconv.ParseFloat` restricted to the scanner's alphabet: an optional
sign, a mantissa with at least one digit and at most one dot, and an optional
exponent part with at least one digit.  The value is kept as the exact
rational the literal denotes (Go rounds it to the nearest `float64`; the
claims in this development only involve literals whose value that rounding
preserves, and the tolerance logic downstream exists precisely to absorb the
difference). -/
def parseFloatQ (tok : Str) : Option ℚ :=
  let (sgn, t1) : ℤ × Str :=
    match tok with
    | '+' :: r => (1, r)
    | '-' :: r => (-1, r)
    | _ => (1, tok)
  let (ds, t2) := takeDigits t1
  let (fs, t3) :=
    match t2 with
    | '.' :: r => takeDigits r
    | _ => (([] : Str), t2)
  if ds = [] ∧ fs = [] then none
  else
    match t3 with
    | [] => some (qVal sgn ds fs 0 true)
    | e :: r =>
      if e = 'e' ∨ e = 'E' then
        let (epos, r2) : Bool × Str :=
          match r with
          | '+' :: rr => (true, rr)
          | '-' :: rr => (false, rr)
          | _ => (true, r)
        let (es, r3) := takeDigits r2
        if es = [] ∨ r3 ≠ [] then none
        else some (qVal sgn ds fs (digitsToNat es) epos)
      else none

/-- `parseNumber` — maximal number-shaped token, then float conversion;
consuming nothing is the "invalid number" error, a token the float parser
rejects surfaces that conversion error. -/
def parseNumber (s : Str) : Except ParseError (ℚ × Str) :=
  let (tok, rest) := numScan s true true true true
  if tok = [] then .error .invalidNumber
  else
    match parseFloatQ tok with
    | none => .error (.badNumberLit tok)
    | some v => .ok (v, rest)

/-- The scanning loop of `parseUnit`: stop at digits, dot, signs and
configured separators. -/
def unitScan (sp : Str) (s : Str) : Str × Str :=
  match s with
  | [] => ([], [])
  | c :: rest =>
    if c.isDigit || c == '.' || c == '+' || c == '-' then ([], c :: rest)
    else if c ∈ sp then ([], c :: rest)
    else
      let (t, r) := unitScan sp rest
      (c :: t, r)

/-- `parseUnit` — maximal run of unit-symbol characters and the remainder. -/
def parseUnit (s : Str) (separators : Str) : Str × Str :=
  unitScan (sepsOrDefault separators) s

/-- The parser's fixed tolerance `epsilon = 1e-12`. -/
def eps : ℚ := mkRat 1 (10 ^ 12)

/-- Absolute value on ℚ, written out so that it evaluates by kernel
reduction. -/
def absQ (q : ℚ) : ℚ :=
  if q < 0 then -q else q

/-- Floor on ℚ via floor division of numerator by denominator. -/
def floorQ (q : ℚ) : ℤ :=
  q.num.fdiv (q.den : ℤ)

/-- `math.Round` — round half away from zero. -/
def roundQ (q : ℚ) : ℤ :=
  if q < 0 then -floorQ (qAdd (-q) (mkRat 1 2)) else floorQ (qAdd q (mkRat 1 2))

/-- Go float-to-integer conversion truncates toward zero. -/
def truncQ (q : ℚ) : ℤ :=
  if q < 0 then -floorQ (-q) else floorQ q

/-- Reduce an integer into the `int64` value range `[-2^63, 2^63)` by
wrap-around, with the powers written as numerals so that concrete runs
evaluate cheaply.  (For a source value outside the range the Go conversion
result is implementation-dependent; the model picks two's-complement
wrap-around.) -/
def wrapInt64 (n : ℤ) : ℤ :=
  (n + 9223372036854775808) % 18446744073709551616 - 9223372036854775808

/-- A target numeric representation `N` of the generic `Parse[N]`: its zero
value, native addition, conversion from `float64` and conversion back to
`float64`. -/
structure NumRep (α : Type) where
  zero : α
  add : α → α → α
  fromFloat : ℚ → α
  toFloat : α → ℚ

/-- The `int64` instantiation: conversion truncates toward zero and wraps,
addition wraps. -/
def int64Rep : NumRep ℤ :=
  ⟨0, fun a b => wrapInt64 (a + b), fun q => wrapInt64 (truncQ q), fun n => (n : ℚ)⟩

/-- The `float64` instantiation: conversions are the identity on the modelled
values, addition is exact. -/
def float64Rep : NumRep ℚ :=
  ⟨0, qAdd, id, id⟩

/-- The two-step precision-loss guard of `Parse`.  Step A: when `partVal` is
within `epsilon` of `math.Round(partVal)`, build N from the rounded value
with no further check.  Step B: otherwise build N directly (`castN`), convert
it back to float and fail when the round trip moved by more than `epsilon`. -/
def convertPart {α : Type} (rep : NumRep α) (partVal : ℚ) : Except ParseError α :=
  if absQ (qSub ((roundQ partVal : ℤ) : ℚ) partVal) ≤ eps then
    .ok (rep.fromFloat ((roundQ partVal : ℤ) : ℚ))
  else if absQ (qSub (rep.toFloat (rep.fromFloat partVal)) partVal) > eps then
    .error (.precisionLoss partVal)
  else .ok (rep.fromFloat partVal)

/-- The unit-symbol scan of one part: separator skip after the number, then
`parseUnit`; returns the unit token and the remainder. -/
def unitTokOf (sys : System) (s1 : Str) : Str × Str :=
  parseUnit (safeSkipSeps s1 sys.Config.Separators) sys.Config.Separators

/-- One iteration body of the parse loop after the multi-part gate: number
scan, inner separator skip, unit scan, resolution, dimension check, value
computation (`val * scaleRatio * u.Scale`) and conversion, trailing separator
skip.  Returns the converted part value, the (possibly newly established)
dimension and the remaining input. -/
def processPart {α : Type} (rep : NumRep α) (sys : System) (orig s : Str)
    (dim : Dimension) (isDimSet : Bool) :
    Except ParseError (α × Dimension × Str) :=
  match parseNumber s with
  | .error e => .error e
  | .ok (val, s1) =>
    if (unitTokOf sys s1).1 = [] then .error (.missingUnit orig)
    else
      match Resolve sys (unitTokOf sys s1).1 with
      | none => .error (.unknownUnit (unitTokOf sys s1).1)
      | some (u, scaleRatio) =>
        if isDimSet && !dim.Equals u.Dimension then
          .error (.mixedDimensions dim u.Dimension)
        else
          match convertPart rep (qMul (qMul val scaleRatio) u.Scale) with
          | .error e => .error e
          | .ok partN =>
            .ok (partN, if isDimSet then dim else u.Dimension,
              safeSkipSeps (unitTokOf sys s1).2 sys.Config.Separators)

/-- The `for s != ""` loop of `Parse`; the multi-part gate sits at the top of
every iteration.  `fuel` only bounds the recursion: each iteration consumes at
least one character, so `Parse` hands in enough fuel that `fuelExhausted`
never surfaces. -/
def parseLoop {α : Type} (rep : NumRep α) (sys : System) (orig : Str) :
    Nat → Str → α → Dimension → Bool → Nat → Except ParseError (α × Dimension)
  | 0, _, _, _, _, _ => .error .fuelExhausted
  | fuel + 1, s, total, dim, isDimSet, partsCount =>
    if s = [] then .ok (total, dim)
    else if partsCount > 0 && !sys.Config.AllowMultiPart then
      .error (.multiPartNotAllowed orig)
    else
      match processPart rep sys orig s dim isDimSet with
      | .error e => .error e
      | .ok (partN, dim2, s4) =>
        parseLoop rep sys orig fuel s4 (rep.add total partN) dim2 true (partsCount + 1)

/-- `Parse[N]` — initial separator skip, then the accumulation loop starting
from the zero value and the zero dimension. -/
def Parse {α : Type} (rep : NumRep α) (input : Str) (sys : System) :
    Except ParseError (α × Dimension) :=
  parseLoop rep sys input ((safeSkipSeps input sys.Config.Separators).length + 1)
    (safeSkipSeps input sys.Config.Separators) rep.zero DimDimensionless false 0

/-! ## Heap model for clone isolation

`Clone` matters because the Go containers are reference types: the method
allocates fresh maps/slices and copies the contents.  The heap model makes
that ownership explicit: a registry handle (`SysRef`) points at heap cells,
`Clone` allocates fresh cells holding copies, and the mutating methods write
through the handle.  Aliasing — what a shallow copy would have produced — is
representable here (two handles with the same indices), so isolation is not
baked in by the modelling. -/

/-- The heap: one list of cells per mutable container kind. -/
structure Heap where
  unitsH : List (List (Str × Unit))
  prefixesH : List (List Prefix)
  bindsH : List (List (Str × List Str))

/-- A registry handle: indices of the three container cells plus the
immutable configuration. -/
structure SysRef where
  u : Nat
  p : Nat
  b : Nat
  Config : SystemConfig

/-- Dereference a handle to the value-level registry. -/
def readSys (h : Heap) (r : SysRef) : System :=
  ⟨h.unitsH.getD r.u [], h.prefixesH.getD r.p [], r.Config, h.bindsH.getD r.b []⟩

/-- Write a value-level registry back through a handle. -/
def writeSys (h : Heap) (r : SysRef) (s : System) : Heap :=
  ⟨h.unitsH.set r.u s.units, h.prefixesH.set r.p s.prefixes,
   h.bindsH.set r.b s.unitPrefixes⟩

/-- `Clone` on the heap: allocate three fresh cells holding copies of the
source containers and return a handle to them. -/
def CloneH (h : Heap) (r : SysRef) : SysRef × Heap :=
  (⟨h.unitsH.length, h.prefixesH.length, h.bindsH.length, r.Config⟩,
   ⟨h.unitsH ++ [(Clone (readSys h r)).units],
    h.prefixesH ++ [(Clone (readSys h r)).prefixes],
    h.bindsH ++ [(Clone (readSys h r)).unitPrefixes]⟩)

/-- `Add` through a handle. -/
def AddH (h : Heap) (r : SysRef) (symbol : Str) (scale : ℚ) (dim : Dimension) : Heap :=
  writeSys h r (Add (readSys h r) symbol scale dim)

/-- `AddPrefix` through a handle. -/
def AddPrefixH (h : Heap) (r : SysRef) (sym : Str) (scale : ℚ) (ts : List Str) :
    Heap × Option RegErr :=
  (writeSys h r (AddPrefix (readSys h r) sym scale ts).1,
   (AddPrefix (readSys h r) sym scale ts).2)

/-- `OverwritePrefix` through a handle. -/
def OverwritePrefixH (h : Heap) (r : SysRef) (sym : Str) (sc : ℚ) :
    Heap × Option RegErr :=
  (writeSys h r (OverwritePrefix (readSys h r) sym sc).1,
   (OverwritePrefix (readSys h r) sym sc).2)

/-! ## Concrete registries used by witnesses and counterexamples -/

/-- The registry of `createTestSystem` in parser/parser_test.go. -/
def testSys : System :=
  (AddPrefix
    (Add (Add (Add (Add (NewSystem ⟨true, false, []⟩)
        (str "s") 1 DimTime)
        (str "m") 60 DimTime)
        (str "h") 3600 DimTime)
        (str "meter") 1 DimLength)
    (str "m") (mkRat 1 1000) [str "s", str "meter"]).1

/-- A registry holding the single unit `u` with scale 1. -/
def sysU : System := Add (NewSystem ⟨true, false, []⟩) (str "u") 1 DimLength

/-- A registry where `mm` is both a registered unit and decomposable as
whitelisted m-milli + m-meter. -/
def sysC3 : System :=
  (AddPrefix
    (Add (Add (NewSystem ⟨true, false, []⟩) (str "m") 1 DimLength)
      (str "mm") 7 DimLength)
    (str "m") (mkRat 1 1000) [str "m"]).1

/-- The longest-prefix example: prefixes `ki` and `k`, both bound to the
unit `b`. -/
def sysKib : System :=
  (AddPrefix ((AddPrefix (Add (NewSystem ⟨false, false, []⟩) (str "b") 1 DimStorage)
      (str "ki") 1024 [str "b"]).1)
    (str "k") 1000 [str "b"]).1

/-- A single-part-only registry with the unit `B`. -/
def sys5 : System := Add (NewSystem ⟨false, false, []⟩) (str "B") 1 DimStorage

/-- The registry of the tricky-separator test: `3` is configured as a
separator. -/
def sys8 : System :=
  Add (Add (NewSystem ⟨true, false, str "3 "⟩) (str "h") 1 DimTime) (str "m") 1 DimTime

/-- A registry with the single unit `a`, used to exercise the non-atomic
`AddPrefix` failure. -/
def sys9 : System := Add (NewSystem ⟨true, false, []⟩) (str "a") 1 DimLength

/-- The whitelist set of a unit key (empty when no set was allocated). -/
def bindingsOf (s : System) (u : Str) : List Str :=
  (lookupBind s.unitPrefixes u).getD []

/-- Sortedness by descending symbol length. -/
def SortedByLenDesc (l : List Prefix) : Prop :=
  l.Pairwise (fun a b => b.Symbol.length ≤ a.Symbol.length)

/-- The full success condition the decomposition walk checks for one prefix
entry: strict-prefix shape, registered remainder unit, whitelisted prefix. -/
def decompMatches (sys : System) (key : Str) (q : Prefix) : Bool :=
  decide (q.Symbol.length < key.length ∧ q.Symbol <+: key) &&
    match lookupA sys.units (key.drop q.Symbol.length) with
    | some _ =>
      match lookupBind sys.unitPrefixes (key.drop q.Symbol.length) with
      | some al => decide (q.Symbol ∈ al)
      | none => false
    | none => false

instance (l : List Prefix) : Decidable (SortedByLenDesc l) :=
  inferInstanceAs (Decidable (l.Pairwise _))

/-! ## Bridging lemmas: wrapper arithmetic agrees with the standard operations -/

theorem qAdd_eq (a b : ℚ) : qAdd a b = a + b := by
  rw [qAdd, Rat.mkRat_eq_divInt, Rat.divInt_eq_div]
  have ha : ((a.den : ℚ)) ≠ 0 := by
    exact_mod_cast a.den_nz
  have hb : ((b.den : ℚ)) ≠ 0 := by
    exact_mod_cast b.den_nz
  conv_rhs => rw [← Rat.num_div_den a, ← Rat.num_div_den b]
  push_cast
  field_simp

theorem qMul_eq (a b : ℚ) : qMul a b = a * b := by
  rw [qMul, Rat.mkRat_eq_divInt, Rat.divInt_eq_div]
  have ha : ((a.den : ℚ)) ≠ 0 := by
    exact_mod_cast a.den_nz
  have hb : ((b.den : ℚ)) ≠ 0 := by
    exact_mod_cast b.den_nz
  conv_rhs => rw [← Rat.num_div_den a, ← Rat.num_div_den b]
  push_cast
  field_simp

theorem qSub_eq (a b : ℚ) : qSub a b = a - b := by
  rw [qSub, qAdd_eq, sub_eq_add_neg]

/-! ## Helper lemmas: heap cells -/

theorem getD_set_ne {β : Type} (d x : β) :
    ∀ (l : List β) (i j : Nat), i ≠ j → (l.set i x).getD j d = l.getD j d := by
  intro l
  induction l with
  | nil => intro i j _; rfl
  | cons a l ih =>
    intro i j hij
    cases i with
    | zero =>
      cases j with
      | zero => exact absurd rfl hij
      | succ j => rfl
    | succ i =>
      cases j with
      | zero => rfl
      | succ j =>
        have : (a :: l).set (i + 1) x = a :: l.set i x := rfl
        rw [this, List.getD_cons_succ, List.getD_cons_succ]
        exact ih i j (by omega)

theorem getD_append_lt {β : Type} (d x : β) :
    ∀ (l : List β) (j : Nat), j < l.length → (l ++ [x]).getD j d = l.getD j d := by
  intro l
  induction l with
  | nil => intro j h; simp at h
  | cons a l ih =>
    intro j h
    cases j with
    | zero => rfl
    | succ j =>
      have h2 : j < l.length := by simpa using h
      have : (a :: l) ++ [x] = a :: (l ++ [x]) := rfl
      rw [this, List.getD_cons_succ, List.getD_cons_succ]
      exact ih j h2

theorem getD_append_len {β : Type} (d x : β) :
    ∀ (l : List β), (l ++ [x]).getD l.length d = x := by
  intro l
  induction l with
  | nil => rfl
  | cons a l ih =>
    have : (a :: l) ++ [x] = a :: (l ++ [x]) := rfl
    rw [this]
    exact ih

theorem readSys_writeSys_ne (h : Heap) (r w : SysRef) (s : System)
    (hu : w.u ≠ r.u) (hp : w.p ≠ r.p) (hb : w.b ≠ r.b) :
    readSys (writeSys h w s) r = readSys h r := by
  unfold readSys writeSys
  rw [getD_set_ne _ _ _ _ _ hu, getD_set_ne _ _ _ _ _ hp, getD_set_ne _ _ _ _ _ hb]

theorem readSys_cloneHeap_old (h : Heap) (r r2 : SysRef)
    (hu : r2.u < h.unitsH.length) (hp : r2.p < h.prefixesH.length)
    (hb : r2.b < h.bindsH.length) :
    readSys (CloneH h r).2 r2 = readSys h r2 := by
  unfold readSys CloneH
  rw [getD_append_lt _ _ _ _ hu, getD_append_lt _ _ _ _ hp, getD_append_lt _ _ _ _ hb]

theorem readSys_cloneHeap_new (h : Heap) (r : SysRef) :
    readSys (CloneH h r).2 (CloneH h r).1 = readSys h r := by
  unfold readSys CloneH Clone
  rw [getD_append_len, getD_append_len, getD_append_len]
  rfl

/-- C7 — Clone isolation: `Clone` hands out freshly allocated deep copies of
the unit map, prefix list and whitelist sets, so a clone initially resolves
exactly like its source, any mutation of the clone (`OverwritePrefix`,
`AddPrefix`, `Add`) leaves every `Resolve` result of the source unchanged,
and any mutation of the source leaves every `Resolve` result of the clone
unchanged. -/
theorem c7_clone_isolation (h : Heap) (r : SysRef)
    (hu : r.u < h.unitsH.length) (hp : r.p < h.prefixesH.length)
    (hb : r.b < h.bindsH.length) :
    (∀ q : Str, Resolve (readSys (CloneH h r).2 (CloneH h r).1) q
        = Resolve (readSys h r) q)
    ∧ (∀ (sym : Str) (sc : ℚ) (q : Str),
        Resolve (readSys ((OverwritePrefixH (CloneH h r).2 (CloneH h r).1 sym sc).1) r) q
          = Resolve (readSys h r) q)
    ∧ (∀ (sym : Str) (sc : ℚ) (ts : List Str) (q : Str),
        Resolve (readSys ((AddPrefixH (CloneH h r).2 (CloneH h r).1 sym sc ts).1) r) q
          = Resolve (readSys h r) q)
    ∧ (∀ (sym : Str) (sc : ℚ) (d : Dimension) (q : Str),
        Resolve (readSys (AddH (CloneH h r).2 (CloneH h r).1 sym sc d) r) q
          = Resolve (readSys h r) q)
    ∧ (∀ (sym : Str) (sc : ℚ) (q : Str),
        Resolve (readSys ((OverwritePrefixH (CloneH h r).2 r sym sc).1) (CloneH h r).1) q
          = Resolve (readSys h r) q)
    ∧ (∀ (sym : Str) (sc : ℚ) (ts : List Str) (q : Str),
        Resolve (readSys ((AddPrefixH (CloneH h r).2 r sym sc ts).1) (CloneH h r).1) q
          = Resolve (readSys h r) q)
    ∧ (∀ (sym : Str) (sc : ℚ) (d : Dimension) (q : Str),
        Resolve (readSys (AddH (CloneH h r).2 r sym sc d) (CloneH h r).1) q
          = Resolve (readSys h r) q) := by
  have hcu : (CloneH h r).1.u ≠ r.u := by
    show h.unitsH.length ≠ r.u
    omega
  have hcp : (CloneH h r).1.p ≠ r.p := by
    show h.prefixesH.length ≠ r.p
    omega
  have hcb : (CloneH h r).1.b ≠ r.b := by
    show h.bindsH.length ≠ r.b
    omega
  have hlu : r.u < (CloneH h r).2.unitsH.length := by
    show r.u < (h.unitsH ++ [_]).length
    simp only [List.length_append, List.length_cons, List.length_nil]
    omega
  have hlp : r.p < (CloneH h r).2.prefixesH.length := by
    show r.p < (h.prefixesH ++ [_]).length
    simp only [List.length_append, List.length_cons, List.length_nil]
    omega
  have hlb : r.b < (CloneH h r).2.bindsH.length := by
    show r.b < (h.bindsH ++ [_]).length
    simp only [List.length_append, List.length_cons, List.length_nil]
    omega
  have hold : readSys (CloneH h r).2 r = readSys h r :=
    readSys_cloneHeap_old h r r hu hp hb
  have hnew : readSys (CloneH h r).2 (CloneH h r).1 = readSys h r :=
    readSys_cloneHeap_new h r
  refine ⟨?_, ?_, ?_, ?_, ?_, ?_, ?_⟩
  · intro q
    rw [hnew]
  · intro sym sc q
    show Resolve (readSys (writeSys (CloneH h r).2 (CloneH h r).1 _) r) q = _
    rw [readSys_writeSys_ne _ _ _ _ hcu hcp hcb, hold]
  · intro sym sc ts q
    show Resolve (readSys (writeSys (CloneH h r).2 (CloneH h r).1 _) r) q = _
    rw [readSys_writeSys_ne _ _ _ _ hcu hcp hcb, hold]
  · intro sym sc d q
    show Resolve (readSys (writeSys (CloneH h r).2 (CloneH h r).1 _) r) q = _
    rw [readSys_writeSys_ne _ _ _ _ hcu hcp hcb, hold]
  · intro sym sc q
    show Resolve (readSys (writeSys (CloneH h r).2 r _) (CloneH h r).1) q = _
    rw [readSys_writeSys_ne _ _ _ _ (fun e => hcu e.symm) (fun e => hcp e.symm)
      (fun e => hcb e.symm), hnew]
  · intro sym sc ts q
    show Resolve (readSys (writeSys (CloneH h r).2 r _) (CloneH h r).1) q = _
    rw [readSys_writeSys_ne _ _ _ _ (fun e => hcu e.symm) (fun e => hcp e.symm)
      (fun e => hcb e.symm), hnew]
  · intro sym sc d q
    show Resolve (readSys (writeSys (CloneH h r).2 r _) (CloneH h r).1) q = _
    rw [readSys_writeSys_ne _ _ _ _ (fun e => hcu e.symm) (fun e => hcp e.symm)
      (fun e => hcb e.symm), hnew]

/-- C7 witness: a one-registry heap holding `sysU`; overwriting the prefix
scale through the clone's handle leaves the source's resolution of `u`
untouched. -/
theorem c7_witness :
    Resolve
      (readSys
        ((OverwritePrefixH
          (CloneH ⟨[sysU.units], [sysU.prefixes], [sysU.unitPrefixes]⟩
            ⟨0, 0, 0, sysU.Config⟩).2
          (CloneH ⟨[sysU.units], [sysU.prefixes], [sysU.unitPrefixes]⟩
            ⟨0, 0, 0, sysU.Config⟩).1 (str "k") 7).1)
        ⟨0, 0, 0, sysU.Config⟩)
      (str "u")
    = Resolve
        (readSys ⟨[sysU.units], [sysU.prefixes], [sysU.unitPrefixes]⟩
          ⟨0, 0, 0, sysU.Config⟩)
        (str "u") :=
  (c7_clone_isolation ⟨[sysU.units], [sysU.prefixes], [sysU.unitPrefixes]⟩
    ⟨0, 0, 0, sysU.Config⟩ (by decide) (by decide) (by decide)).2.1
    (str "k") 7 (str "u")

/-! ## Helper lemmas: resolution and the parse loop -/

theorem resolve_of_lookup (sys : System) (sym : Str) (u2 : Unit)
    (h : lookupA sys.units (normalizeKey sys sym) = some u2) :
    Resolve sys sym = some (u2, 1) := by
  simp [Resolve, h]

theorem parseNumber_error_shape (s : Str) (e : ParseError)
    (h : parseNumber s = .error e) :
    e = .invalidNumber ∨ ∃ t, e = .badNumberLit t := by
  unfold parseNumber at h
  rcases hn : numScan s true true true true with ⟨tok, rest⟩
  rw [hn] at h
  by_cases ht : tok = []
  · simp [ht] at h
    exact Or.inl h.symm
  · simp only [ht, if_false] at h
    rcases hf : parseFloatQ tok with _ | v
    · rw [hf] at h
      simp at h
      exact Or.inr ⟨tok, h.symm⟩
    · rw [hf] at h
      simp at h

theorem convertPart_error_shape {α : Type} (rep : NumRep α) (pv : ℚ) (e : ParseError)
    (h : convertPart rep pv = .error e) : e = .precisionLoss pv := by
  unfold convertPart at h
  split at h
  · simp at h
  · split at h
    · simp at h
      exact h.symm
    · simp at h

theorem processPart_mixed_ne {α : Type} (rep : NumRep α) (sys : System)
    (orig s : Str) (dim : Dimension) (ds : Bool) (a b : Dimension)
    (h : processPart rep sys orig s dim ds = .error (.mixedDimensions a b)) :
    ¬a = b := by
  unfold processPart at h
  split at h
  · rename_i e hpn
    rcases parseNumber_error_shape _ _ hpn with h1 | ⟨t, h1⟩ <;>
      (subst h1; simp at h)
  · split at h
    · simp at h
    · split at h
      · simp at h
      · split at h
        · rename_i u2 sc _ hguard
          simp only [Except.error.injEq, ParseError.mixedDimensions.injEq] at h
          rcases h with ⟨ha, hb⟩
          intro hab
          have hde : dim = u2.Dimension := by
            rw [ha, hab, ← hb]
          have hq : Dimension.Equals dim u2.Dimension = true := by
            simp [Dimension.Equals, hde]
          rw [hq] at hguard
          simp at hguard
        · split at h
          · rename_i e hcv
            have := convertPart_error_shape _ _ _ hcv
            subst this
            simp at h
          · simp at h

theorem parseLoop_mixed_ne {α : Type} (rep : NumRep α) (sys : System) (orig : Str) :
    ∀ (fuel : Nat) (s : Str) (total : α) (dim : Dimension) (ds : Bool) (n : Nat)
      (a b : Dimension),
      parseLoop rep sys orig fuel s total dim ds n = .error (.mixedDimensions a b) →
      ¬a = b := by
  intro fuel
  induction fuel with
  | zero =>
    intro s total dim ds n a b h
    simp [parseLoop] at h
  | succ fuel ih =>
    intro s total dim ds n a b h
    rw [parseLoop] at h
    split at h
    · simp at h
    · split at h
      · simp at h
      · split at h
        · rename_i e hpp
          simp only [Except.error.injEq] at h
          subst h
          exact processPart_mixed_ne _ _ _ _ _ _ _ _ hpp
        · exact ih _ _ _ _ _ _ _ h

theorem processPart_mixed_of_ne {α : Type} (rep : NumRep α) (sys : System)
    (orig s : Str) (dim : Dimension) (v : ℚ) (s1 tok s3 : Str) (u2 : Unit) (sc : ℚ)
    (hpn : parseNumber s = .ok (v, s1))
    (hup : unitTokOf sys s1 = (tok, s3))
    (htok : ¬tok = [])
    (hres : Resolve sys tok = some (u2, sc))
    (hne : ¬dim = u2.Dimension) :
    processPart rep sys orig s dim true = .error (.mixedDimensions dim u2.Dimension) := by
  have heq : Dimension.Equals dim u2.Dimension = false := by
    simp [Dimension.Equals, hne]
  unfold processPart
  rw [hpn]
  dsimp only
  rw [hup]
  simp [htok, hres, heq]

/-! ## Claims C2 and C6 -/

/-- C2 — Exact-match priority: whenever the normalization of a symbol is a
key of the unit map, `Resolve` returns that unit with prefix scale exactly 1
and found, whatever prefixes are registered (the decomposition walk is never
consulted). -/
theorem c2_exact_match_priority (sys : System) (sym : Str) (u2 : Unit)
    (h : lookupA sys.units (normalizeKey sys sym) = some u2) :
    Resolve sys sym = some (u2, 1) :=
  resolve_of_lookup sys sym u2 h

/-- C2 witness: in `sysC3` the symbol `mm` is an exact unit even though the
registered prefix `m` is a prefix of it and `m` is a unit. -/
theorem c2_witness : Resolve sysC3 (str "mm") = some (⟨str "mm", DimLength, 7⟩, 1) :=
  c2_exact_match_priority sysC3 (str "mm") ⟨str "mm", DimLength, 7⟩ (by decide)

/-- C6 — Dimension equality and mixed-dimension rejection: `Equals` holds
exactly when all seven SI exponents and the discriminator agree; a non-empty
discriminator is never equal to an empty one; parsing `"1s 1meter"` against
the test registry fails with the mixed-dimensions error naming time and
length; every mixed-dimensions error of the parse loop carries two unequal
dimensions; and a part that resolves to a dimension different from the
established one always produces exactly that error. -/
theorem c6_dimension_equality :
    (∀ d e : Dimension, d.Equals e = true ↔
      (d.L = e.L ∧ d.M = e.M ∧ d.T = e.T ∧ d.I = e.I ∧ d.K = e.K ∧ d.N = e.N ∧
        d.J = e.J ∧ d.Extra = e.Extra))
    ∧ (∀ d e : Dimension, ¬d.Extra = "" → e.Extra = "" → d.Equals e = false)
    ∧ Parse float64Rep (str "1s 1meter") testSys
        = .error (.mixedDimensions DimTime DimLength)
    ∧ (∀ (α : Type) (rep : NumRep α) (sys : System) (orig : Str) (fuel : Nat)
        (s : Str) (total : α) (dim : Dimension) (ds : Bool) (n : Nat)
        (a b : Dimension),
        parseLoop rep sys orig fuel s total dim ds n = .error (.mixedDimensions a b) →
        ¬a = b)
    ∧ (∀ (α : Type) (rep : NumRep α) (sys : System) (orig s : Str) (dim : Dimension)
        (v : ℚ) (s1 tok s3 : Str) (u2 : Unit) (sc : ℚ),
        parseNumber s = .ok (v, s1) → unitTokOf sys s1 = (tok, s3) → ¬tok = [] →
        Resolve sys tok = some (u2, sc) → ¬dim = u2.Dimension →
        processPart rep sys orig s dim true
          = .error (.mixedDimensions dim u2.Dimension)) := by
  refine ⟨?_, ?_, by decide, ?_, ?_⟩
  · intro d e
    cases d
    cases e
    simp [Dimension.Equals]
  · intro d e h1 h2
    simp only [Dimension.Equals, decide_eq_false_iff_not]
    intro he
    rw [he] at h1
    exact h1 h2
  · intro α rep sys orig fuel s total dim ds n a b h
    exact parseLoop_mixed_ne rep sys orig fuel s total dim ds n a b h
  · intro α rep sys orig s dim v s1 tok s3 u2 sc h1 h2 h3 h4 h5
    exact processPart_mixed_of_ne rep sys orig s dim v s1 tok s3 u2 sc h1 h2 h3 h4 h5

/-- C6 witness: the storage dimension (discriminator only) is not `Equals`
to the time dimension. -/
theorem c6_witness : Dimension.Equals DimStorage DimTime = false :=
  c6_dimension_equality.2.1 DimStorage DimTime (by decide) rfl

/-! ## Claim C5 -/

/-- C5 counterexample: with multi-part disallowed, `"1B2X"` — whose second
part has the unknown unit symbol `X` — fails with the multi-part error, not
with the unknown-unit error the claim predicts: the gate runs at the top of
the loop iteration, before the second part is scanned or resolved. -/
theorem c5_counterexample :
    Parse float64Rep (str "1B2X") sys5 = .error (.multiPartNotAllowed (str "1B2X"))
    ∧ ¬Parse float64Rep (str "1B2X") sys5 = .error (.unknownUnit (str "X")) := by
  exact ⟨by decide, by decide⟩

/-- C5 amended — Multi-part gate position: the gate is checked first in every
loop iteration: whenever a part beyond the first begins (non-empty remaining
input, at least one part already consumed) and the configuration disallows
multi-part accumulation, the loop fails with the multi-part error before the
new part's number scan, unit resolution or dimension check run; in
particular `"1B2X"` fails with the multi-part error even though its second
part's unit symbol is unknown. -/
theorem c5_multipart_gate_amended :
    (∀ (α : Type) (rep : NumRep α) (sys : System) (orig : Str) (fuel : Nat)
      (s : Str) (total : α) (dim : Dimension) (ds : Bool) (n : Nat),
      ¬s = [] → 0 < n → sys.Config.AllowMultiPart = false →
      parseLoop rep sys orig (fuel + 1) s total dim ds n
        = .error (.multiPartNotAllowed orig))
    ∧ Parse float64Rep (str "1B2X") sys5 = .error (.multiPartNotAllowed (str "1B2X")) := by
  constructor
  · intro α rep sys orig fuel s total dim ds n hs hn hc
    rw [parseLoop]
    simp [hs, hn, hc]
  · decide

/-- C5 witness: the loop state reached after the first part of `"1B2X"`
(remaining input `"2X"`, one part consumed) errors with the multi-part
gate. -/
theorem c5_witness :
    parseLoop float64Rep sys5 (str "1B2X") 1 (str "2X") 1 DimStorage true 1
      = .error (.multiPartNotAllowed (str "1B2X")) :=
  c5_multipart_gate_amended.1 ℚ float64Rep sys5 (str "1B2X") 0 (str "2X") 1
    DimStorage true 1 (by decide) (by decide) rfl

/-! ## Claim C8 -/

/-- C8 counterexample: with `3` configured as a separator, the input `"3"`
consists entirely of configured separator characters, yet parsing it does not
return the empty success — the separator skip refuses to consume a
number-start character, so the parser scans the number 3 and then fails with
the missing-unit error. -/
theorem c8_counterexample :
    (∀ c ∈ str "3", c ∈ sys8.Config.Separators)
    ∧ Parse float64Rep (str "3") sys8 = .error (.missingUnit (str "3"))
    ∧ ¬Parse float64Rep (str "3") sys8 = .ok (float64Rep.zero, DimDimensionless) := by
  exact ⟨by decide, by decide, by decide⟩

/-- C8 amended — Empty-input success: whenever the leading separator skip
leaves nothing (in particular on the empty input, and on any input made of
configured separator characters none of which can start a number), `Parse`
returns the zero value of the representation and the dimensionless dimension
with no error. -/
theorem c8_empty_input_amended :
    (∀ (α : Type) (rep : NumRep α) (sys : System) (input : Str),
      safeSkipSeps input sys.Config.Separators = [] →
      Parse rep input sys = .ok (rep.zero, DimDimensionless))
    ∧ (∀ (α : Type) (rep : NumRep α) (sys : System),
      Parse rep [] sys = .ok (rep.zero, DimDimensionless))
    ∧ (∀ (sep s : Str),
      (∀ c ∈ s, c ∈ sepsOrDefault sep ∧ numStart c = false) →
      safeSkipSeps s sep = []) := by
  have hskip : ∀ (sep s : Str),
      (∀ c ∈ s, c ∈ sepsOrDefault sep ∧ numStart c = false) →
      safeSkipSeps s sep = [] := by
    intro sep s
    induction s with
    | nil => intro _; rfl
    | cons c rest ih =>
      intro h
      have hc := h c (List.mem_cons_self c rest)
      have hr : ∀ x ∈ rest, x ∈ sepsOrDefault sep ∧ numStart x = false := by
        intro x hx
        exact h x (List.mem_cons_of_mem c hx)
      rw [safeSkipSeps, if_neg, if_pos hc.1]
      · exact ih hr
      · rw [hc.2]
        simp
  have hmain : ∀ (α : Type) (rep : NumRep α) (sys : System) (input : Str),
      safeSkipSeps input sys.Config.Separators = [] →
      Parse rep input sys = .ok (rep.zero, DimDimensionless) := by
    intro α rep sys input h
    unfold Parse
    rw [h]
    rfl
  exact ⟨hmain, fun α rep sys => hmain α rep sys [] rfl, hskip⟩

/-- C8 witness: an input of one space and one comma against the default
separator set parses to the zero value and the dimensionless dimension. -/
theorem c8_witness :
    Parse float64Rep (str " ,") testSys = .ok (float64Rep.zero, DimDimensionless) :=
  c8_empty_input_amended.1 ℚ float64Rep testSys (str " ,") (by decide)

/-! ## Helper lemmas: prefix bindings (AddPrefix) -/

theorem bindTargets_preserves (pKey : Str) :
    ∀ (ts : List Str) (s : System),
      (bindTargets s pKey ts).1.units = s.units
      ∧ (bindTargets s pKey ts).1.prefixes = s.prefixes
      ∧ (bindTargets s pKey ts).1.Config = s.Config := by
  intro ts
  induction ts with
  | nil => intro s; exact ⟨rfl, rfl, rfl⟩
  | cons t rest ih =>
    intro s
    rw [bindTargets]
    rcases hl : lookupA s.units (normalizeKey s t) with _ | u2
    · exact ⟨rfl, rfl, rfl⟩
    · exact ih _

theorem addBinding_self (p : Str) :
    ∀ (l : List (Str × List Str)) (u : Str),
      p ∈ (lookupBind (addBinding l u p) u).getD [] := by
  intro l
  induction l with
  | nil =>
    intro u
    simp [addBinding, lookupBind]
  | cons kv rest ih =>
    intro u
    rcases kv with ⟨k2, st⟩
    by_cases hk : k2 = u
    · subst hk
      simp only [addBinding, if_pos rfl, lookupBind]
      by_cases hp : p ∈ st
      · simp [hp]
      · simp [hp]
    · simp only [addBinding, if_neg hk, lookupBind]
      exact ih u

theorem addBinding_mono (p q : Str) :
    ∀ (l : List (Str × List Str)) (u u2 : Str),
      q ∈ (lookupBind l u2).getD [] →
      q ∈ (lookupBind (addBinding l u p) u2).getD [] := by
  intro l
  induction l with
  | nil =>
    intro u u2 h
    simp [lookupBind] at h
  | cons kv rest ih =>
    intro u u2 h
    rcases kv with ⟨k2, st⟩
    by_cases hk : k2 = u
    · subst hk
      simp only [addBinding, if_pos rfl, lookupBind] at h ⊢
      by_cases hk2 : k2 = u2
      · rw [if_pos hk2] at h ⊢
        simp only [Option.getD_some] at h ⊢
        by_cases hp : p ∈ st
        · simpa [hp] using h
        · simp [hp]
          exact Or.inl h
      · rw [if_neg hk2] at h ⊢
        exact h
    · simp only [addBinding, if_neg hk, lookupBind] at h ⊢
      by_cases hk2 : k2 = u2
      · rw [if_pos hk2] at h ⊢
        exact h
      · rw [if_neg hk2] at h ⊢
        exact ih u u2 h

theorem bindTargets_mono (pKey q u2 : Str) :
    ∀ (ts : List Str) (s : System),
      q ∈ bindingsOf s u2 → q ∈ bindingsOf (bindTargets s pKey ts).1 u2 := by
  intro ts
  induction ts with
  | nil => intro s h; exact h
  | cons t rest ih =>
    intro s h
    rw [bindTargets]
    rcases hl : lookupA s.units (normalizeKey s t) with _ | uu
    · exact h
    · exact ih _ (addBinding_mono pKey q _ _ _ h)

theorem bindTargets_partial (pKey bad : Str) (ts2 : List Str) :
    ∀ (ts1 : List Str) (s : System),
      (∀ t ∈ ts1, (lookupA s.units (normalizeKey s t)).isSome = true) →
      lookupA s.units (normalizeKey s bad) = none →
      (bindTargets s pKey (ts1 ++ bad :: ts2)).2 = some (.unknownTargetUnit bad)
      ∧ (bindTargets s pKey (ts1 ++ bad :: ts2)).1.units = s.units
      ∧ (bindTargets s pKey (ts1 ++ bad :: ts2)).1.prefixes = s.prefixes
      ∧ (∀ t ∈ ts1,
          pKey ∈ bindingsOf (bindTargets s pKey (ts1 ++ bad :: ts2)).1
            (normalizeKey s t)) := by
  intro ts1
  induction ts1 with
  | nil =>
    intro s _ hbad
    rw [List.nil_append, bindTargets, hbad]
    exact ⟨rfl, rfl, rfl, by intro t ht; simp at ht⟩
  | cons t rest ih =>
    intro s hok hbad
    have hts : (lookupA s.units (normalizeKey s t)).isSome = true :=
      hok t (List.mem_cons_self t rest)
    rcases hl : lookupA s.units (normalizeKey s t) with _ | uu
    · rw [hl] at hts; simp at hts
    · have hcons : (t :: rest) ++ bad :: ts2 = t :: (rest ++ bad :: ts2) := rfl
      rw [hcons, bindTargets, hl]
      have hstep := ih { s with unitPrefixes := addBinding s.unitPrefixes (normalizeKey s t) pKey }
        (by intro x hx; exact hok x (List.mem_cons_of_mem t hx)) hbad
      refine ⟨hstep.1, hstep.2.1, hstep.2.2.1, ?_⟩
      intro x hx
      rcases List.mem_cons.mp hx with hx1 | hx2
      · subst hx1
        exact bindTargets_mono pKey pKey _ _ _ (addBinding_self pKey _ _)
      · exact hstep.2.2.2 x hx2

/-! ## Helper lemmas: prefix-list sorting -/

theorem insertByLen_mem_self (p : Prefix) : ∀ (l : List Prefix), p ∈ insertByLen p l := by
  intro l
  induction l with
  | nil => exact List.mem_singleton_self p
  | cons q rest ih =>
    rw [insertByLen]
    by_cases hc : q.Symbol.length < p.Symbol.length
    · rw [if_pos hc]
      exact List.mem_cons_self p _
    · rw [if_neg hc]
      exact List.mem_cons_of_mem q ih

theorem mem_of_insertByLen (p x : Prefix) :
    ∀ (l : List Prefix), x ∈ insertByLen p l → x = p ∨ x ∈ l := by
  intro l
  induction l with
  | nil =>
    intro h
    rw [insertByLen] at h
    simpa using h
  | cons q rest ih =>
    intro h
    rw [insertByLen] at h
    by_cases hc : q.Symbol.length < p.Symbol.length
    · rw [if_pos hc] at h
      rcases List.mem_cons.mp h with h1 | h2
      · exact Or.inl h1
      · exact Or.inr h2
    · rw [if_neg hc] at h
      rcases List.mem_cons.mp h with h1 | h2
      · exact Or.inr (h1 ▸ List.mem_cons_self q rest)
      · rcases ih h2 with h3 | h4
        · exact Or.inl h3
        · exact Or.inr (List.mem_cons_of_mem q h4)

theorem mem_sortByLenDesc (x : Prefix) :
    ∀ (l : List Prefix), x ∈ l → x ∈ sortByLenDesc l := by
  intro l
  induction l with
  | nil => intro h; simp at h
  | cons q rest ih =>
    intro h
    show x ∈ insertByLen q (sortByLenDesc rest)
    rcases List.mem_cons.mp h with h1 | h2
    · subst h1
      exact insertByLen_mem_self x _
    · exact insertByLen_mem q (ih h2)
where
  insertByLen_mem {x : Prefix} (p : Prefix) : ∀ {l : List Prefix}, x ∈ l → x ∈ insertByLen p l := by
    intro l
    induction l with
    | nil => intro h; simp at h
    | cons q rest ih =>
      intro h
      rw [insertByLen]
      by_cases hc : q.Symbol.length < p.Symbol.length
      · rw [if_pos hc]
        exact List.mem_cons_of_mem p h
      · rw [if_neg hc]
        rcases List.mem_cons.mp h with h1 | h2
        · exact h1 ▸ List.mem_cons_self q _
        · exact List.mem_cons_of_mem q (ih h2)

theorem insertByLen_sorted (p : Prefix) :
    ∀ (l : List Prefix), SortedByLenDesc l → SortedByLenDesc (insertByLen p l) := by
  intro l
  induction l with
  | nil =>
    intro _
    exact List.pairwise_singleton _ p
  | cons q rest ih =>
    intro h
    rcases List.pairwise_cons.mp h with ⟨hq, hrest⟩
    rw [insertByLen]
    by_cases hc : q.Symbol.length < p.Symbol.length
    · rw [if_pos hc]
      refine List.pairwise_cons.mpr ⟨?_, h⟩
      intro y hy
      rcases List.mem_cons.mp hy with h1 | h2
      · rw [h1]
        omega
      · have := hq y h2
        omega
    · rw [if_neg hc]
      refine List.pairwise_cons.mpr ⟨?_, ih hrest⟩
      intro y hy
      rcases mem_of_insertByLen p y rest hy with h1 | h2
      · rw [h1]
        omega
      · exact hq y h2

theorem sortByLenDesc_sorted : ∀ (l : List Prefix), SortedByLenDesc (sortByLenDesc l) := by
  intro l
  induction l with
  | nil => exact List.Pairwise.nil
  | cons q rest ih => exact insertByLen_sorted q _ ih

/-! ## Claim C9 -/

/-- C9 — `AddPrefix` is not atomic on failure: when the prefix symbol is new
and some target unit is unregistered, the call reports the
unknown-target-unit error, yet the prefix definition has already been
inserted into the prefix list and the bindings to the target units listed
before the unknown one are installed; concretely, after the failed
`AddPrefix("k", 1000, "a", "zz")` on a registry knowing only `a`, resolving
`ka` succeeds (it failed before), and re-adding `k` with a different scale
now reports the conflicting-definition error (it did not before). -/
theorem c9_addprefix_not_atomic :
    (∀ (sys : System) (pSym : Str) (sc : ℚ) (ts1 : List Str) (bad : Str)
      (ts2 : List Str),
      sys.prefixes.find? (fun p => p.Symbol = normalizeKey sys pSym) = none →
      (∀ t ∈ ts1, (lookupA sys.units (normalizeKey sys t)).isSome = true) →
      lookupA sys.units (normalizeKey sys bad) = none →
      (AddPrefix sys pSym sc (ts1 ++ bad :: ts2)).2 = some (.unknownTargetUnit bad)
      ∧ (⟨normalizeKey sys pSym, sc⟩ : Prefix)
          ∈ (AddPrefix sys pSym sc (ts1 ++ bad :: ts2)).1.prefixes
      ∧ (∀ t ∈ ts1, normalizeKey sys pSym
          ∈ bindingsOf (AddPrefix sys pSym sc (ts1 ++ bad :: ts2)).1
              (normalizeKey sys t)))
    ∧ (AddPrefix sys9 (str "k") 1000 [str "a", str "zz"]).2
        = some (.unknownTargetUnit (str "zz"))
    ∧ Resolve (AddPrefix sys9 (str "k") 1000 [str "a", str "zz"]).1 (str "ka")
        = some (⟨str "a", DimLength, 1⟩, 1000)
    ∧ Resolve sys9 (str "ka") = none
    ∧ (AddPrefix (AddPrefix sys9 (str "k") 1000 [str "a", str "zz"]).1
        (str "k") 500 []).2 = some (.conflictingScale (str "k"))
    ∧ (AddPrefix sys9 (str "k") 500 []).2 = none := by
  refine ⟨?_, by decide, by decide, by decide, by decide, by decide⟩
  intro sys pSym sc ts1 bad ts2 hfind hok hbad
  unfold AddPrefix
  dsimp only
  rw [hfind]
  have hpart := bindTargets_partial (normalizeKey sys pSym) bad ts2 ts1
    { sys with prefixes := sortByLenDesc (sys.prefixes ++ [⟨normalizeKey sys pSym, sc⟩]) }
    hok hbad
  refine ⟨hpart.1, ?_, hpart.2.2.2⟩
  rw [hpart.2.2.1]
  exact mem_sortByLenDesc _ _
    (List.mem_append_right _ (List.mem_singleton_self _))

/-- C9 witness: the failed call on the concrete registry has inserted the
prefix and bound it to `a`. -/
theorem c9_witness :
    (AddPrefix sys9 (str "k") 1000 [str "a", str "zz"]).2
      = some (.unknownTargetUnit (str "zz"))
    ∧ (⟨str "k", 1000⟩ : Prefix)
        ∈ (AddPrefix sys9 (str "k") 1000 [str "a", str "zz"]).1.prefixes
    ∧ str "k" ∈ bindingsOf (AddPrefix sys9 (str "k") 1000 [str "a", str "zz"]).1
        (str "a") := by
  have h := c9_addprefix_not_atomic.1 sys9 (str "k") 1000 [str "a"] (str "zz") []
    (by decide) (by decide) (by decide)
  exact ⟨h.1, h.2.1, h.2.2 (str "a") (List.mem_singleton_self _)⟩

/-! ## Helper lemmas: the decomposition walk of Resolve -/

theorem resolveLoop_cons_skip (sys : System) (key : Str) (q : Prefix)
    (rest : List Prefix) (h : decompMatches sys key q = false) :
    resolveLoop sys key (q :: rest) = resolveLoop sys key rest := by
  rw [resolveLoop]
  by_cases hg : q.Symbol.length < key.length ∧ q.Symbol <+: key
  · rw [if_pos hg]
    rcases hl : lookupA sys.units (key.drop q.Symbol.length) with _ | u2
    · rfl
    · dsimp only
      rcases hb : lookupBind sys.unitPrefixes (key.drop q.Symbol.length) with _ | al
      · rfl
      · have hm : ¬q.Symbol ∈ al := by
          unfold decompMatches at h
          rw [hl, hb] at h
          simpa [hg] using h
        dsimp only
        rw [if_neg hm]
  · rw [if_neg hg]

theorem resolveLoop_cons_match (sys : System) (key : Str) (q : Prefix)
    (rest : List Prefix) (u2 : Unit) (al : List Str)
    (hg1 : q.Symbol.length < key.length) (hg2 : q.Symbol <+: key)
    (hl : lookupA sys.units (key.drop q.Symbol.length) = some u2)
    (hb : lookupBind sys.unitPrefixes (key.drop q.Symbol.length) = some al)
    (hm : q.Symbol ∈ al) :
    resolveLoop sys key (q :: rest) = some (u2, q.Scale) := by
  rw [resolveLoop, if_pos ⟨hg1, hg2⟩, hl, hb]
  dsimp only
  rw [if_pos hm]

theorem resolveLoop_none (sys : System) (key : Str) :
    ∀ l : List Prefix, (∀ q ∈ l, decompMatches sys key q = false) →
      resolveLoop sys key l = none := by
  intro l
  induction l with
  | nil => intro _; rfl
  | cons q rest ih =>
    intro h
    rw [resolveLoop_cons_skip sys key q rest (h q (List.mem_cons_self q rest))]
    exact ih (fun x hx => h x (List.mem_cons_of_mem q hx))

theorem resolveLoop_finds (sys : System) (pKey uKey : Str) (sc : ℚ) (u2 : Unit)
    (al : List Str)
    (hne : ¬uKey = [])
    (hu : lookupA sys.units uKey = some u2)
    (hb : lookupBind sys.unitPrefixes uKey = some al)
    (hm : pKey ∈ al) :
    ∀ l : List Prefix,
      SortedByLenDesc l →
      (l.map (fun p => p.Symbol)).Nodup →
      (⟨pKey, sc⟩ : Prefix) ∈ l →
      (∀ q ∈ l, pKey.length < q.Symbol.length →
        decompMatches sys (pKey ++ uKey) q = false) →
      resolveLoop sys (pKey ++ uKey) l = some (u2, sc) := by
  have hlen : pKey.length < (pKey ++ uKey).length := by
    rw [List.length_append]
    have : uKey.length ≠ 0 := fun h0 => hne (List.length_eq_zero.mp h0)
    omega
  have hdrop : (pKey ++ uKey).drop pKey.length = uKey := by
    simp
  have htake : (pKey ++ uKey).take pKey.length = pKey := by
    simp
  intro l
  induction l with
  | nil =>
    intro _ _ hmem _
    simp at hmem
  | cons q rest ih =>
    intro hsort hnodup hmem hlonger
    by_cases hq : q = ⟨pKey, sc⟩
    · subst hq
      exact resolveLoop_cons_match sys _ _ rest u2 al hlen (List.prefix_append _ _)
        (by rw [hdrop]; exact hu) (by rw [hdrop]; exact hb) hm
    · have hmem2 : (⟨pKey, sc⟩ : Prefix) ∈ rest := by
        rcases List.mem_cons.mp hmem with h1 | h2
        · exact absurd h1.symm hq
        · exact h2
      have hsort2 := (List.pairwise_cons.mp hsort).2
      have hnodup2 : (q.Symbol :: rest.map (fun p => p.Symbol)).Nodup := by
        simpa using hnodup
      have hge : pKey.length ≤ q.Symbol.length := by
        have := (List.pairwise_cons.mp hsort).1 ⟨pKey, sc⟩ hmem2
        simpa using this
      have hskip : decompMatches sys (pKey ++ uKey) q = false := by
        rcases Nat.lt_or_ge pKey.length q.Symbol.length with hlt | hge2
        · exact hlonger q (List.mem_cons_self q rest) hlt
        · have heq : q.Symbol.length = pKey.length := le_antisymm hge2 hge
          have hnp : ¬q.Symbol <+: (pKey ++ uKey) := by
            intro hpre
            have hqs : q.Symbol = (pKey ++ uKey).take q.Symbol.length :=
              List.prefix_iff_eq_take.mp hpre
            rw [heq, htake] at hqs
            have hdup : q.Symbol ∈ rest.map (fun p => p.Symbol) := by
              rw [hqs]
              exact List.mem_map.mpr ⟨⟨pKey, sc⟩, hmem2, rfl⟩
            exact (List.nodup_cons.mp hnodup2).1 hdup
          unfold decompMatches
          have hand : ¬(q.Symbol.length < (pKey ++ uKey).length ∧
              q.Symbol <+: (pKey ++ uKey)) := by
            intro hand
            exact hnp hand.2
          rw [decide_eq_false hand, Bool.false_and]
      rw [resolveLoop_cons_skip sys _ q rest hskip]
      exact ih hsort2 (List.nodup_cons.mp hnodup2).2 hmem2
        (fun x hx hlx => hlonger x (List.mem_cons_of_mem q hx) hlx)

/-! ## Claims C3 and C4 -/

/-- C3 counterexample: in `sysC3` the prefix `m` is registered, the unit `m`
is registered, `m` is in `m`'s whitelist — yet resolving the concatenation
`"m" + "m" = "mm"` does not return the unit `m` with the prefix scale: `mm`
is itself a registered unit, and the exact match wins. -/
theorem c3_counterexample :
    (⟨str "m", mkRat 1 1000⟩ : Prefix) ∈ sysC3.prefixes
    ∧ lookupA sysC3.units (str "m") = some ⟨str "m", DimLength, 1⟩
    ∧ str "m" ∈ bindingsOf sysC3 (str "m")
    ∧ Resolve sysC3 (str "m" ++ str "m") = some (⟨str "mm", DimLength, 7⟩, 1)
    ∧ ¬Resolve sysC3 (str "m" ++ str "m")
        = some (⟨str "m", DimLength, 1⟩, mkRat 1 1000) := by
  exact ⟨by decide, by decide, by decide, by decide, by decide⟩

/-- C3 amended — Whitelist-gated decomposition: provided the concatenation
`p + u` is not itself a registered unit key, normalizes to itself, and no
strictly longer registered prefix also passes the decomposition check on it,
resolving `p + u` in a registry whose prefix list is sorted
longest-symbol-first with pairwise distinct symbols returns unit `u` with
`p`'s scale whenever `p` is in `u`'s whitelist; and when no registered prefix
passes the decomposition check at all (in particular when the only candidate
is not whitelisted) and there is no exact unit match, `Resolve` reports
not-found even though prefix and unit each exist. -/
theorem c3_whitelist_decomposition_amended :
    (∀ (sys : System) (pKey uKey : Str) (sc : ℚ) (u2 : Unit) (al : List Str),
      SortedByLenDesc sys.prefixes →
      (sys.prefixes.map (fun p => p.Symbol)).Nodup →
      normalizeKey sys (pKey ++ uKey) = pKey ++ uKey →
      lookupA sys.units (pKey ++ uKey) = none →
      (⟨pKey, sc⟩ : Prefix) ∈ sys.prefixes →
      ¬uKey = [] →
      lookupA sys.units uKey = some u2 →
      lookupBind sys.unitPrefixes uKey = some al →
      pKey ∈ al →
      (∀ q ∈ sys.prefixes, pKey.length < q.Symbol.length →
        decompMatches sys (pKey ++ uKey) q = false) →
      Resolve sys (pKey ++ uKey) = some (u2, sc))
    ∧ (∀ (sys : System) (t : Str),
      lookupA sys.units (normalizeKey sys t) = none →
      (∀ q ∈ sys.prefixes, decompMatches sys (normalizeKey sys t) q = false) →
      Resolve sys t = none) := by
  constructor
  · intro sys pKey uKey sc u2 al hsort hnodup hnorm hnone hp hne hu hb hm hlonger
    unfold Resolve
    dsimp only
    rw [hnorm, hnone]
    exact resolveLoop_finds sys pKey uKey sc u2 al hne hu hb hm sys.prefixes
      hsort hnodup hp hlonger
  · intro sys t hnone hall
    unfold Resolve
    dsimp only
    rw [hnone]
    exact resolveLoop_none sys _ sys.prefixes hall

/-- C3 witness: in `sysKib` (no unit `kib` registered, `ki` whitelisted for
`b`), resolving `"ki" + "b"` returns the unit `b` with scale 1024. -/
theorem c3_witness :
    Resolve sysKib (str "ki" ++ str "b") = some (⟨str "b", DimStorage, 1⟩, 1024) :=
  c3_whitelist_decomposition_amended.1 sysKib (str "ki") (str "b") 1024
    ⟨str "b", DimStorage, 1⟩ [str "ki", str "k"]
    (by decide) (by decide) (by decide) (by decide) (by decide) (by decide)
    (by decide) (by decide) (by decide) (by decide)

/-- C4 — Longest-prefix-first precedence: `AddPrefix` keeps the prefix list
sorted by descending symbol length (whatever branch it takes), and with `ki`
and `k` both registered and bound to `b`, resolving `kib` selects `ki` + `b`
with scale 1024, not a `k` + `ib` decomposition; the registry's prefix list
indeed stores `ki` before `k`. -/
theorem c4_longest_first :
    (∀ (sys : System) (pSym : Str) (sc : ℚ) (ts : List Str),
      SortedByLenDesc sys.prefixes →
      SortedByLenDesc (AddPrefix sys pSym sc ts).1.prefixes)
    ∧ Resolve sysKib (str "kib") = some (⟨str "b", DimStorage, 1⟩, 1024)
    ∧ sysKib.prefixes = [⟨str "ki", 1024⟩, ⟨str "k", 1000⟩] := by
  refine ⟨?_, by decide, by decide⟩
  intro sys pSym sc ts hs
  unfold AddPrefix
  dsimp only
  rcases hf : sys.prefixes.find? (fun p => p.Symbol = normalizeKey sys pSym) with _ | p
  · rw [hf]
    rw [(bindTargets_preserves _ ts _).2.1]
    exact sortByLenDesc_sorted _
  · rw [hf]
    dsimp only
    by_cases hsc : p.Scale ≠ sc
    · rw [if_pos hsc]
      exact hs
    · rw [if_neg hsc]
      rw [(bindTargets_preserves _ ts _).2.1]
      exact hs

/-- C4 witness: adding one more prefix to the already sorted `sysKib` keeps
the prefix list sorted by descending symbol length. -/
theorem c4_witness :
    SortedByLenDesc (AddPrefix sysKib (str "a") 5 []).1.prefixes :=
  c4_longest_first.1 sysKib (str "a") 5 [] (by decide)

/-! ## Helper lemmas: single-part runs of Parse -/

theorem safeSkipSeps_cons_numStart (c : Char) (s sep : Str) (h : numStart c = true) :
    safeSkipSeps (c :: s) sep = c :: s := by
  rw [safeSkipSeps, if_pos h]

theorem safeSkipSeps_cons_stop (c : Char) (s sep : Str) (h : numStart c = false)
    (h2 : ¬c ∈ sepsOrDefault sep) : safeSkipSeps (c :: s) sep = c :: s := by
  rw [safeSkipSeps, if_neg (by simp [h]), if_neg h2]

theorem parseLoop_one_part {α : Type} (rep : NumRep α) (sys : System) (orig s : Str)
    (total : α) (dim dim2 : Dimension) (pn : α) (fuel : Nat)
    (hs : ¬s = [])
    (hpp : processPart rep sys orig s dim false = .ok (pn, dim2, [])) :
    parseLoop rep sys orig (fuel + 2) s total dim false 0
      = .ok (rep.add total pn, dim2) := by
  rw [parseLoop, if_neg hs,
    if_neg (by simp : ¬((0 > 0 && !sys.Config.AllowMultiPart) = true))]
  rw [hpp]
  dsimp only
  rw [parseLoop, if_pos rfl]

theorem parseLoop_one_part_error {α : Type} (rep : NumRep α) (sys : System)
    (orig s : Str) (total : α) (dim : Dimension) (e : ParseError) (fuel : Nat)
    (hs : ¬s = [])
    (hpp : processPart rep sys orig s dim false = .error e) :
    parseLoop rep sys orig (fuel + 1) s total dim false 0 = .error e := by
  rw [parseLoop, if_neg hs,
    if_neg (by simp : ¬((0 > 0 && !sys.Config.AllowMultiPart) = true))]
  rw [hpp]

theorem normalizeKey_u (sys : System) : normalizeKey sys (str "u") = str "u" := by
  unfold normalizeKey
  split
  · decide
  · rfl

/-- A symbolic single-part run: on any registry that has the unit key `u`
(with `u` not a configured separator), parsing `"0.5u"` reduces to the
precision-loss guard applied to `0.5 * 1 * Scale(u)`. -/
theorem parse_05u_general {α : Type} (rep : NumRep α) (sys : System) (u2 : Unit)
    (h1 : lookupA sys.units (str "u") = some u2)
    (h2 : ¬('u' ∈ sepsOrDefault sys.Config.Separators)) :
    Parse rep (str "0.5u") sys =
      match convertPart rep (qMul (qMul (mkRat 1 2) 1) u2.Scale) with
      | .error e => .error e
      | .ok pn => .ok (rep.add rep.zero pn, u2.Dimension) := by
  have hs0 : safeSkipSeps (str "0.5u") sys.Config.Separators = str "0.5u" := by
    have hv : str "0.5u" = '0' :: ['.', '5', 'u'] := rfl
    rw [hv]
    exact safeSkipSeps_cons_numStart _ _ _ (by decide)
  have hpn : parseNumber (str "0.5u") = .ok (mkRat 1 2, str "u") := by decide
  have hsk1 : safeSkipSeps (str "u") sys.Config.Separators = str "u" := by
    have hv : str "u" = 'u' :: [] := rfl
    rw [hv]
    exact safeSkipSeps_cons_stop _ _ _ (by decide) (by simpa using h2)
  have hscan : parseUnit (str "u") sys.Config.Separators = (str "u", []) := by
    unfold parseUnit
    rw [unitScan.eq_def, show str "u" = 'u' :: ([] : Str) from rfl]
    dsimp only
    rw [if_neg (by decide), if_neg (by simpa using h2)]
    rfl
  have hut : unitTokOf sys (str "u") = (str "u", []) := by
    unfold unitTokOf
    rw [hsk1, hscan]
  have hres : Resolve sys (str "u") = some (u2, 1) :=
    resolve_of_lookup sys (str "u") u2 (by rw [normalizeKey_u]; exact h1)
  have hpp : processPart rep sys (str "0.5u") (str "0.5u") DimDimensionless false
      = match convertPart rep (qMul (qMul (mkRat 1 2) 1) u2.Scale) with
        | .error e => .error e
        | .ok pn => .ok (pn, u2.Dimension, []) := by
    unfold processPart
    rw [hpn]
    dsimp only
    rw [hut]
    dsimp only
    rw [if_neg (by decide), hres]
    dsimp only
    rcases hcv : convertPart rep (qMul (qMul (mkRat 1 2) 1) u2.Scale) with e | pn
    · rfl
    · rfl
  show parseLoop rep sys (str "0.5u")
      ((safeSkipSeps (str "0.5u") sys.Config.Separators).length + 1)
      (safeSkipSeps (str "0.5u") sys.Config.Separators) rep.zero DimDimensionless
      false 0 = _
  rw [hs0]
  rcases hcv : convertPart rep (qMul (qMul (mkRat 1 2) 1) u2.Scale) with e | pn
  · rw [hcv] at hpp
    exact parseLoop_one_part_error rep sys _ _ rep.zero DimDimensionless e 4
      (by decide) hpp
  · rw [hcv] at hpp
    exact parseLoop_one_part rep sys _ _ rep.zero DimDimensionless u2.Dimension pn 3
      (by decide) hpp

/-! ## Claims C1 and C10 -/

/-- C1 — Precision-loss guard: on any registry with a unit `u` of scale 1
(and `u` not a separator), parsing `"0.5u"` into the int64 representation
fails with the precision-loss error carrying 0.5, while the float64
representation succeeds with 0.5; and in general the conversion of a part
value snaps to the rounded integer when it is within `epsilon` of it, and
otherwise fails with the precision-loss error exactly when converting to the
target and back moves the value by more than `epsilon`. -/
theorem c1_precision_loss_guard :
    (∀ (sys : System) (u2 : Unit),
      lookupA sys.units (str "u") = some u2 →
      u2.Scale = 1 →
      ¬('u' ∈ sepsOrDefault sys.Config.Separators) →
      Parse int64Rep (str "0.5u") sys = .error (.precisionLoss (mkRat 1 2))
      ∧ Parse float64Rep (str "0.5u") sys = .ok (mkRat 1 2, u2.Dimension))
    ∧ (∀ (α : Type) (rep : NumRep α) (pv : ℚ),
      (absQ (qSub ((roundQ pv : ℤ) : ℚ) pv) ≤ eps →
        convertPart rep pv = .ok (rep.fromFloat ((roundQ pv : ℤ) : ℚ)))
      ∧ (¬absQ (qSub ((roundQ pv : ℤ) : ℚ) pv) ≤ eps →
        (convertPart rep pv = .error (.precisionLoss pv) ↔
          eps < absQ (qSub (rep.toFloat (rep.fromFloat pv)) pv)))) := by
  constructor
  · intro sys u2 h1 hscale h2
    have hval : qMul (qMul (mkRat 1 2) 1) u2.Scale = mkRat 1 2 := by
      rw [hscale]
      decide
    constructor
    · rw [parse_05u_general int64Rep sys u2 h1 h2, hval]
      rw [show convertPart int64Rep (mkRat 1 2)
        = .error (.precisionLoss (mkRat 1 2)) from by decide]
    · rw [parse_05u_general float64Rep sys u2 h1 h2, hval]
      rw [show convertPart float64Rep (mkRat 1 2) = .ok (mkRat 1 2) from by decide]
      dsimp only
      rw [show float64Rep.add float64Rep.zero (mkRat 1 2) = mkRat 1 2 from by decide]
  · intro α rep pv
    constructor
    · intro h
      unfold convertPart
      rw [if_pos h]
    · intro h
      unfold convertPart
      rw [if_neg h]
      by_cases h3 : absQ (qSub (rep.toFloat (rep.fromFloat pv)) pv) > eps
      · rw [if_pos h3]
        simpa using h3
      · rw [if_neg h3]
        constructor
        · intro hx
          exact absurd hx (by simp)
        · intro hx
          exact absurd hx h3

/-- C1 witness: on the concrete registry `sysU` (unit `u`, scale 1, default
separators), the int64 parse of `"0.5u"` reports precision loss on value 0.5
and the float64 parse returns 0.5 with the unit's dimension. -/
theorem c1_witness :
    Parse int64Rep (str "0.5u") sysU = .error (.precisionLoss (mkRat 1 2))
    ∧ Parse float64Rep (str "0.5u") sysU = .ok (mkRat 1 2, DimLength) :=
  c1_precision_loss_guard.1 sysU ⟨str "u", DimLength, 1⟩ (by decide) rfl (by decide)

/-- C10 — No range check in the integer-snap branch: whenever a part value is
within `epsilon` of its rounded integer, the conversion returns the target
image of that integer with no round-trip representability check, for every
target representation; in particular parsing `"1e30u"` — whose integral value
exceeds the largest int64 — into the int64 representation succeeds (with the
two's-complement-wrapped value) instead of reporting precision loss. -/
theorem c10_no_snap_range_check :
    (∀ (α : Type) (rep : NumRep α) (pv : ℚ),
      absQ (qSub ((roundQ pv : ℤ) : ℚ) pv) ≤ eps →
      convertPart rep pv = .ok (rep.fromFloat ((roundQ pv : ℤ) : ℚ)))
    ∧ Parse int64Rep (str "1e30u") sysU = .ok (5076944270305263616, DimLength)
    ∧ wrapInt64 (10 ^ 30) = 5076944270305263616
    ∧ (9223372036854775807 : ℤ) < 10 ^ 30 := by
  refine ⟨?_, by decide, by norm_num [wrapInt64], by norm_num⟩
  intro α rep pv h
  unfold convertPart
  rw [if_pos h]

/-- C10 witness: the part value 30 is snapped and converted with no error in
the int64 representation. -/
theorem c10_witness :
    convertPart int64Rep 30 = .ok (int64Rep.fromFloat ((roundQ 30 : ℤ) : ℚ)) :=
  c10_no_snap_range_check.1 ℤ int64Rep 30 (by decide)

end S2Q
